import Mathlib

/-!
# Verification of the asciirast terminal-graphics core

Shallow embedding of the asciirast repository's data model and operations.
The repository's Python layer marshals calls to a native engine whose source
is absent from the repository; where the behaviour under verification lives
in that native engine, the corresponding definition carries a doc comment
beginning `Modelled from the spec:` and follows the specification's words.
All other definitions are direct translations of the Python source
(`py_asciirast`, `py_acrast`, `rasterizer_api`).

Python strings are embedded as lists of code points (`List Nat`); Python
floats are embedded as exact rationals (`ℚ`); machine integers are embedded
as `Nat`/`Int` with explicit bounds where they matter.
-/

/-- A 24-bit RGB triple, as in `rasterizer_api/color/rgbcolor.py` and
`py_asciirast/color_encoding.py`: three channels `r`, `g`, `b`. -/
structure RGBColor where
  r : Nat
  g : Nat
  b : Nat
deriving DecidableEq, Repr

/-- Modelled from the spec: the native `color_encode_rgb` (absent from the
repository; `encode_rgb` in `rasterizer_api/color/rgbcolor.py` only marshals
to it). Packs the three byte channels into fixed bit positions
`r<<16 | g<<8 | b`. -/
def encode_rgb (rgb : RGBColor) : Nat :=
  rgb.r * 65536 + rgb.g * 256 + rgb.b

/-- Modelled from the spec: the native `color_decode_rgb` (absent from the
repository; `decode_rgb` in `rasterizer_api/color/rgbcolor.py` only marshals
to it). Extracts the three byte channels from their bit positions. -/
def decode_rgb (v : Nat) : RGBColor :=
  ⟨v / 65536 % 256, v / 256 % 256, v % 256⟩

namespace PyAsciirast

/-- The canonical depth wrapper of `py_asciirast/canvas.py`: a single
integer `value`. -/
structure CanvasDepth where
  value : Int
deriving DecidableEq, Repr

/-- Python `int(q)`: truncation toward zero. -/
def pyIntOfRat (q : ℚ) : Int :=
  if q < 0 then -Int.floor (-q) else Int.floor q

/-- `CanvasDepth.from_float` of `py_asciirast/canvas.py`:
`CanvasDepth(int(x * (2**32 - 1)))`.  The Python float argument is embedded
as an exact rational. -/
def CanvasDepth.from_float (x : ℚ) : CanvasDepth :=
  ⟨pyIntOfRat (x * (2 ^ 32 - 1))⟩

/-- `CanvasDepth.from_int` of `py_asciirast/canvas.py`: `CanvasDepth(x)`. -/
def CanvasDepth.from_int (x : Int) : CanvasDepth :=
  ⟨x⟩

end PyAsciirast

/-- C1: For byte triples, decoding the encoding returns the original triple,
and encode is a bijection between byte triples and the 2^24 space of packed
24-bit colors (it is a two-sided inverse of decode there). -/
theorem claim_c1_codec_roundtrip_bijection :
    (∀ r g b : Nat, r < 256 → g < 256 → b < 256 →
      decode_rgb (encode_rgb ⟨r, g, b⟩) = ⟨r, g, b⟩) ∧
    (∀ v : Nat, v < 2 ^ 24 → encode_rgb (decode_rgb v) = v) ∧
    (∀ c : RGBColor, c.r < 256 → c.g < 256 → c.b < 256 → encode_rgb c < 2 ^ 24) := by
  refine ⟨?_, ?_, ?_⟩
  · intro r g b hr hg hb
    simp only [encode_rgb, decode_rgb, RGBColor.mk.injEq]
    omega
  · intro v hv
    simp only [encode_rgb, decode_rgb]
    omega
  · intro c hr hg hb
    simp only [encode_rgb]
    omega

/-- Witness for C1 at the concrete triple (12, 34, 56) and the concrete
packed value 0xABCDEF. -/
theorem claim_c1_witness :
    decode_rgb (encode_rgb ⟨12, 34, 56⟩) = ⟨12, 34, 56⟩ ∧
    encode_rgb (decode_rgb 11259375) = 11259375 := by
  refine ⟨claim_c1_codec_roundtrip_bijection.1 12 34 56 ?_ ?_ ?_,
    claim_c1_codec_roundtrip_bijection.2.1 11259375 ?_⟩ <;> decide

namespace PyAsciirast

/-- C7: `CanvasDepth.from_float` is monotone on [0,1], agrees with
`CanvasDepth.from_int (2^32 - 1)` at 1, and its value stays inside the
unsigned 32-bit range on [0,1]. -/
theorem claim_c7_depth_monotone_canonical (a b : ℚ) (ha : 0 ≤ a) (hab : a ≤ b) (hb : b ≤ 1) :
    (CanvasDepth.from_float a).value ≤ (CanvasDepth.from_float b).value ∧
    (CanvasDepth.from_float 1).value = (CanvasDepth.from_int (2 ^ 32 - 1)).value ∧
    0 ≤ (CanvasDepth.from_float a).value ∧
    (CanvasDepth.from_float a).value ≤ 2 ^ 32 - 1 := by
  have hc : (0 : ℚ) ≤ (2 ^ 32 - 1 : ℚ) := by norm_num
  have hnn : ∀ x : ℚ, 0 ≤ x → pyIntOfRat (x * (2 ^ 32 - 1)) = Int.floor (x * (2 ^ 32 - 1)) := by
    intro x hx
    have : ¬ (x * (2 ^ 32 - 1) < 0) := not_lt.mpr (mul_nonneg hx hc)
    simp [pyIntOfRat, this]
  have hb0 : (0 : ℚ) ≤ b := le_trans ha hab
  refine ⟨?_, ?_, ?_, ?_⟩
  · simp only [CanvasDepth.from_float, hnn a ha, hnn b hb0]
    exact Int.floor_le_floor (mul_le_mul_of_nonneg_right hab hc)
  · simp only [CanvasDepth.from_float, CanvasDepth.from_int]
    norm_num [pyIntOfRat]
  · simp only [CanvasDepth.from_float, hnn a ha]
    exact Int.floor_nonneg.mpr (mul_nonneg ha hc)
  · simp only [CanvasDepth.from_float, hnn a ha]
    have h1 : a * (2 ^ 32 - 1 : ℚ) ≤ (2 ^ 32 - 1 : ℚ) := by
      calc a * (2 ^ 32 - 1 : ℚ) ≤ 1 * (2 ^ 32 - 1 : ℚ) :=
            mul_le_mul_of_nonneg_right (le_trans hab hb) hc
        _ = (2 ^ 32 - 1 : ℚ) := one_mul _
    calc Int.floor (a * (2 ^ 32 - 1 : ℚ)) ≤ Int.floor ((2 ^ 32 - 1 : ℚ)) :=
          Int.floor_le_floor h1
      _ = 2 ^ 32 - 1 := by norm_num

/-- Witness for C7 at a = 0, b = 1. -/
theorem claim_c7_witness :
    (CanvasDepth.from_float 0).value ≤ (CanvasDepth.from_float 1).value ∧
    (CanvasDepth.from_float 1).value = (CanvasDepth.from_int (2 ^ 32 - 1)).value ∧
    0 ≤ (CanvasDepth.from_float 0).value ∧
    (CanvasDepth.from_float 0).value ≤ 2 ^ 32 - 1 :=
  claim_c7_depth_monotone_canonical 0 1 (by norm_num) (by norm_num) (by norm_num)

end PyAsciirast

/-- The error kinds of the spec's §7 (the wrappers report the first three
as `ValueError` with distinguishing messages), plus two Python errors the
`py_asciirast` wrapper can actually raise: the `IndexError` of
`ord(ascii_char[0])` on an empty glyph string, and the `AttributeError` of
`EncodedRGBColor.decode(val)` called with a plain integer as `self`. -/
inductive CanvasError where
  | InvalidArgument
  | InvalidGlyph
  | OutOfBounds
  | IndexError
  | AttributeError
deriving DecidableEq, Repr

namespace PyAcrast

/-- One grid position's full render state: glyph code point, packed fg and
bg colors, and the depth value (a Python float in `py_acrast`, embedded as
an exact rational). -/
structure Cell where
  glyph : Nat
  fg : Nat
  bg : Nat
  depth : ℚ
deriving DecidableEq, Repr

/-- The canvas state of `py_acrast/canvas/canvas.py`: dimensions, the four
defaults fixed at construction, and the grid (`w` columns of `h` cells,
matching the native `c_uint32 * h * w` plane layout). -/
structure Canvas where
  w : Nat
  h : Nat
  default_fg_encoded : Nat
  default_bg_encoded : Nat
  default_depth : ℚ
  default_glyph : Nat
  cells : List (List Cell)
deriving DecidableEq, Repr

/-- The cell holding a canvas's four default values. -/
def Canvas.defaultCell (cv : Canvas) : Cell :=
  ⟨cv.default_glyph, cv.default_fg_encoded, cv.default_bg_encoded, cv.default_depth⟩

/-- `Canvas.__init__` of `py_acrast/canvas/canvas.py`: validates the default
depth (must lie in [0,1]), then that the default glyph is a single
character, then that its code point is printable (0x20..0x7E); width and
height are stored without validation.  The grid allocation performed by the
native `canvas_create` is modelled from the spec as a `w`×`h` grid of
default cells. -/
def canvasInit (w h : Nat) (default_fg default_bg : RGBColor) (default_depth : ℚ)
    (default_ascii_char : List Nat) : Except CanvasError Canvas :=
  if ¬ (0 ≤ default_depth ∧ default_depth ≤ 1) then .error .InvalidArgument
  else if ¬ (default_ascii_char.length = 1) then .error .InvalidArgument
  else if ¬ (32 ≤ default_ascii_char.headD 0 ∧ default_ascii_char.headD 0 ≤ 126) then
    .error .InvalidArgument
  else
    let cv : Canvas :=
      { w := w, h := h,
        default_fg_encoded := encode_rgb default_fg,
        default_bg_encoded := encode_rgb default_bg,
        default_depth := default_depth,
        default_glyph := default_ascii_char.headD 0,
        cells := [] }
    .ok { cv with cells := List.replicate w (List.replicate h cv.defaultCell) }

/-- The cell value used as the out-of-range default of read accessors. -/
def cellDefault : Cell := ⟨0, 0, 0, 0⟩

/-- Read one cell of the grid. -/
def Canvas.getCell (cv : Canvas) (x y : Nat) : Cell :=
  (cv.cells.getD x []).getD y cellDefault

/-- Overwrite one cell of the grid (identity outside the grid). -/
def Canvas.setCell (cv : Canvas) (x y : Nat) (cell : Cell) : Canvas :=
  { cv with cells := cv.cells.set x ((cv.cells.getD x []).set y cell) }

/-- Modelled from the spec: the native `canvas_plot` (absent from the
repository).  Performs a depth test against the target cell's current depth
— the incoming depth wins when it is at least the current one, following
the spec's default "larger depth = nearer/wins" policy — and on a win
writes all four cell fields together; on a loss it is a silent no-op. -/
def Canvas.nativePlot (cv : Canvas) (x y : Nat) (depth_value : ℚ)
    (fg_encoded bg_encoded : Nat) (c : Nat) : Canvas :=
  if (cv.getCell x y).depth ≤ depth_value then
    cv.setCell x y ⟨c, fg_encoded, bg_encoded, depth_value⟩
  else cv

/-- Foreground resolution in `Canvas.plot`:
`self._default_fg_encoded if not fg_color else encode_rgb(fg_color)`.
An `RGBColor` dataclass instance is always truthy, so exactly `None`
selects the default. -/
def Canvas.resolve_fg (cv : Canvas) (fg_color : Option RGBColor) : Nat :=
  match fg_color with
  | none => cv.default_fg_encoded
  | some col => encode_rgb col

/-- Background resolution in `Canvas.plot`, as for the foreground. -/
def Canvas.resolve_bg (cv : Canvas) (bg_color : Option RGBColor) : Nat :=
  match bg_color with
  | none => cv.default_bg_encoded
  | some col => encode_rgb col

/-- Depth resolution in `Canvas.plot`:
`self._default_depth if not depth else depth`.  Python falsiness makes both
`None` and `0.0` select the default depth. -/
def Canvas.resolve_depth (cv : Canvas) (depth : Option ℚ) : ℚ :=
  match depth with
  | none => cv.default_depth
  | some d => if d = 0 then cv.default_depth else d

/-- `Canvas.plot` of `py_acrast/canvas/canvas.py` (the clipping entry
point): out-of-bounds coordinates are a silent no-op; then the glyph is
validated (single character, printable code point, else `InvalidGlyph`);
then colors and depth are resolved against the defaults and the native
write (`Canvas.nativePlot`) is performed.  Returns the resulting canvas
together with the raised error, if any. -/
def Canvas.plot (cv : Canvas) (x y : Int) (c : List Nat)
    (fg_color bg_color : Option RGBColor) (depth : Option ℚ) :
    Canvas × Option CanvasError :=
  if ¬ (0 ≤ x ∧ x < (cv.w : Int) ∧ 0 ≤ y ∧ y < (cv.h : Int)) then (cv, none)
  else if ¬ (c.length = 1) then (cv, some .InvalidGlyph)
  else if ¬ (32 ≤ c.headD 0 ∧ c.headD 0 ≤ 126) then (cv, some .InvalidGlyph)
  else
    (cv.nativePlot x.toNat y.toNat (cv.resolve_depth depth)
      (cv.resolve_fg fg_color) (cv.resolve_bg bg_color) (c.headD 0), none)

/-- `Canvas.clear`, with the native `canvas_clear` modelled from the spec:
resets every cell to the four construction defaults in one pass. -/
def Canvas.clear (cv : Canvas) : Canvas :=
  { cv with cells := List.replicate cv.w (List.replicate cv.h cv.defaultCell) }

lemma getCell_setCell_ne (cv : Canvas) (x y i j : Nat) (cell : Cell)
    (hij : ¬ (i = x ∧ j = y)) :
    (cv.setCell x y cell).getCell i j = cv.getCell i j := by
  unfold Canvas.setCell Canvas.getCell
  simp only [List.getD_eq_getElem?_getD]
  by_cases hix : i = x
  · subst hix
    have hjy : j ≠ y := fun h => hij ⟨rfl, h⟩
    by_cases hlen : i < cv.cells.length
    · rw [List.getElem?_set_self']
      rcases h : cv.cells[i]? with _ | row
      · exact absurd (List.getElem?_eq_none_iff.mp h) (by omega)
      · simp only [Option.map_eq_map, Option.map_some, Option.getD_some, Function.const]
        rw [List.getElem?_set_ne (fun hh => hjy hh.symm)]
    · rw [List.set_eq_of_length_le (by omega)]
  · rw [List.getElem?_set_ne (fun hh => hix hh.symm)]

/-- C3 counterexample: construction with width 0 and height 5 and otherwise
valid defaults succeeds, contrary to the claim that `Canvas.create(0, 5,
...)` fails with `InvalidArgument`. -/
theorem claim_c3_counterexample :
    canvasInit 0 5 ⟨255, 255, 255⟩ ⟨0, 0, 0⟩ 0 [32] =
      Except.ok
        { w := 0, h := 5, default_fg_encoded := 16777215, default_bg_encoded := 0,
          default_depth := 0, default_glyph := 32, cells := [] } := by
  rfl

/-- C3 (amended): construction fails with `InvalidArgument` exactly when the
default depth lies outside [0,1], or the default glyph is not a single
character, or its code point is not printable (0x20..0x7E); width and
height are accepted without validation, so `Canvas.create(0, 5, ...)` does
not fail. -/
theorem claim_c3_init_validation (w h : Nat) (fg bg : RGBColor) (depth : ℚ)
    (glyph : List Nat) :
    (∃ e, canvasInit w h fg bg depth glyph = Except.error e) ↔
      ¬ (0 ≤ depth ∧ depth ≤ 1) ∨ glyph.length ≠ 1 ∨
        ¬ (32 ≤ glyph.headD 0 ∧ glyph.headD 0 ≤ 126) := by
  unfold canvasInit
  split
  · simp_all
  · split
    · simp_all
    · split <;> simp_all

lemma plot_fst_cases (cv : Canvas) (x y : Int) (c : List Nat)
    (fg_color bg_color : Option RGBColor) (depth : Option ℚ) :
    (cv.plot x y c fg_color bg_color depth).1 = cv ∨
      (cv.plot x y c fg_color bg_color depth).1 =
        cv.setCell x.toNat y.toNat
          ⟨c.headD 0, cv.resolve_fg fg_color, cv.resolve_bg bg_color,
            cv.resolve_depth depth⟩ := by
  unfold Canvas.plot Canvas.nativePlot
  split
  · exact Or.inl rfl
  · split
    · exact Or.inl rfl
    · split
      · exact Or.inl rfl
      · split
        · exact Or.inr rfl
        · exact Or.inl rfl

/-- C6: `plot` is atomic — whenever it reports an error the canvas is
unchanged, and in every case the resulting canvas is either the original
one (error, clip, or depth-test loss) or the original with exactly one
whole-cell write applying all four resolved fields together, every other
cell left untouched. -/
theorem claim_c6_plot_atomic (cv : Canvas) (x y : Int) (c : List Nat)
    (fg_color bg_color : Option RGBColor) (depth : Option ℚ) :
    ((cv.plot x y c fg_color bg_color depth).2.isSome →
      (cv.plot x y c fg_color bg_color depth).1 = cv) ∧
    ((cv.plot x y c fg_color bg_color depth).1 = cv ∨
      ((cv.plot x y c fg_color bg_color depth).1 =
          cv.setCell x.toNat y.toNat
            ⟨c.headD 0, cv.resolve_fg fg_color, cv.resolve_bg bg_color,
              cv.resolve_depth depth⟩ ∧
        ∀ i j : Nat, ¬ (i = x.toNat ∧ j = y.toNat) →
          (cv.plot x y c fg_color bg_color depth).1.getCell i j =
            cv.getCell i j)) := by
  unfold Canvas.plot
  split
  · exact ⟨fun _ => rfl, Or.inl rfl⟩
  · split
    · exact ⟨fun _ => rfl, Or.inl rfl⟩
    · split
      · exact ⟨fun _ => rfl, Or.inl rfl⟩
      · refine ⟨fun hs => by simp at hs, ?_⟩
        unfold Canvas.nativePlot
        split
        · exact Or.inr ⟨rfl, fun i j hij => getCell_setCell_ne cv _ _ i j _ hij⟩
        · exact Or.inl rfl

/-- C8: a canvas's width, height, and its four defaults (glyph, fg, bg,
depth) are preserved unchanged by `plot` and by `clear`. -/
theorem claim_c8_dims_defaults_preserved (cv : Canvas) (x y : Int) (c : List Nat)
    (fg_color bg_color : Option RGBColor) (depth : Option ℚ) :
    ((cv.plot x y c fg_color bg_color depth).1.w = cv.w ∧
      (cv.plot x y c fg_color bg_color depth).1.h = cv.h ∧
      (cv.plot x y c fg_color bg_color depth).1.default_fg_encoded = cv.default_fg_encoded ∧
      (cv.plot x y c fg_color bg_color depth).1.default_bg_encoded = cv.default_bg_encoded ∧
      (cv.plot x y c fg_color bg_color depth).1.default_depth = cv.default_depth ∧
      (cv.plot x y c fg_color bg_color depth).1.default_glyph = cv.default_glyph) ∧
    (cv.clear.w = cv.w ∧ cv.clear.h = cv.h ∧
      cv.clear.default_fg_encoded = cv.default_fg_encoded ∧
      cv.clear.default_bg_encoded = cv.default_bg_encoded ∧
      cv.clear.default_depth = cv.default_depth ∧
      cv.clear.default_glyph = cv.default_glyph) := by
  rcases plot_fst_cases cv x y c fg_color bg_color depth with h | h <;> rw [h] <;>
    exact ⟨⟨rfl, rfl, rfl, rfl, rfl, rfl⟩, rfl, rfl, rfl, rfl, rfl, rfl⟩

/-- C9: calling `plot` with an explicit depth of exactly 0 behaves
identically to omitting the depth argument — the falsy-depth test
substitutes the canvas's default depth — so a caller cannot plot at depth 0
unless it equals the default. -/
theorem claim_c9_depth_zero_falsy (cv : Canvas) (x y : Int) (c : List Nat)
    (fg_color bg_color : Option RGBColor) :
    cv.plot x y c fg_color bg_color (some 0) = cv.plot x y c fg_color bg_color none ∧
    cv.resolve_depth (some 0) = cv.default_depth := by
  have h : cv.resolve_depth (some 0) = cv.resolve_depth none := by
    simp [Canvas.resolve_depth]
  exact ⟨by unfold Canvas.plot; rw [h], by simp [Canvas.resolve_depth]⟩

end PyAcrast

namespace PyAsciirast

/-- The Python-layer checks of the strict `Canvas.plot` entry point in
`py_asciirast/canvas.py`, in source order: the bounds guard
`if not x < self._width or not y < self._height` raises `ValueError`
(the spec's `OutOfBounds`) — note it tests only the upper bounds — and
otherwise the call marshals `ord(ascii_char[0])` to the native write,
raising `IndexError` on an empty string.  No other validation is performed.
Returns the raised error, if any; `none` means the native write proceeds. -/
def strict_plot_error (width height : Nat) (x y : Int) (ascii_char : List Nat) :
    Option CanvasError :=
  if ¬ (x < (width : Int)) ∨ ¬ (y < (height : Int)) then some CanvasError.OutOfBounds
  else if ascii_char.length = 0 then some CanvasError.IndexError
  else none

/-- The glyph code point the strict `plot` passes to the native write:
`ord(ascii_char[0])`, the first character of the argument, whatever the
argument's length. -/
def strict_plot_glyph_arg (ascii_char : List Nat) : Nat :=
  ascii_char.headD 0

/-- The state of the `py_asciirast/canvas.py` `Canvas` that its color read
accessors observe: dimensions and the two packed color planes, `width`
arrays of `height` packed values, matching the native
`c_uint32 * height * width` plane layout. -/
structure CanvasA where
  width : Nat
  height : Nat
  fg_values : List (List Nat)
  bg_values : List (List Nat)
deriving DecidableEq, Repr

/-- `Canvas.get_fg_color_value_at`: returns the raw packed integer
`self._raw_fg_color_values.contents[x][y]` (despite the `RGBColor` return
annotation in the source). -/
def CanvasA.get_fg_color_value_at (cv : CanvasA) (x y : Nat) : Nat :=
  (cv.fg_values.getD x []).getD y 0

/-- `Canvas.get_bg_color_value_at`: the raw packed integer of the bg plane
at `[x][y]`. -/
def CanvasA.get_bg_color_value_at (cv : CanvasA) (x y : Nat) : Nat :=
  (cv.bg_values.getD x []).getD y 0

/-- `EncodedRGBColor` of `py_asciirast/color_encoding.py`: the wrapper
dataclass holding one packed color `value`. -/
structure EncodedRGBColor where
  value : Nat
deriving DecidableEq, Repr

/-- `EncodedRGBColor.decode` called on a proper `EncodedRGBColor` instance:
reads `self.value` and applies the (spec-modelled) native decode. -/
def EncodedRGBColor.decode (self : EncodedRGBColor) : RGBColor :=
  decode_rgb self.value

/-- The expression `EncodedRGBColor.decode(val)` exactly as the whole-plane
accessors write it: iterating the ctypes plane yields plain integers, so
the unbound method receives the integer `val` as `self`, and the method
body's first attribute access `self.value` raises `AttributeError` — the
native decode is never reached, whatever `val` is. -/
def decode_called_on_plain_int (val : Nat) : Except CanvasError RGBColor :=
  Except.error CanvasError.AttributeError

/-- `Canvas.get_all_fg_color_values` as written in the source: a nested
comprehension evaluating `EncodedRGBColor.decode(val)` for every raw fg
plane entry, so it raises `AttributeError` at the first entry of any
nonempty plane and returns decoded triples only for an entirely empty
grid. -/
def CanvasA.get_all_fg_color_values (cv : CanvasA) :
    Except CanvasError (List (List RGBColor)) :=
  cv.fg_values.mapM (fun arr => arr.mapM decode_called_on_plain_int)

/-- `Canvas.get_all_bg_color_values` as written in the source: the same
nested comprehension over the bg plane, raising `AttributeError` at the
first entry of any nonempty plane. -/
def CanvasA.get_all_bg_color_values (cv : CanvasA) :
    Except CanvasError (List (List RGBColor)) :=
  cv.bg_values.mapM (fun arr => arr.mapM decode_called_on_plain_int)

end PyAsciirast

/-- Demonstration canvas used by concrete witnesses: a 1×1 `py_acrast`
canvas whose single cell holds the defaults. -/
def cvDemo : PyAcrast.Canvas :=
  ⟨1, 1, 0, 0, 0, 32, [[⟨32, 0, 0, 0⟩]]⟩

/-- C2 counterexample: on a 5×5 canvas the strict `plot` entry point of
`py_asciirast` raises nothing at (-1, 0) — its bounds guard tests only the
upper bounds — contrary to the claim that every out-of-bounds coordinate,
negative ones included, fails with `OutOfBounds`. -/
theorem claim_c2_counterexample :
    PyAsciirast.strict_plot_error 5 5 (-1) 0 [120] = none := by
  decide

/-- C2 (amended): the strict `plot` entry point raises `OutOfBounds`
exactly when x ≥ width or y ≥ height — negative coordinates pass its guard
— while the clipping `plot` of the `py_acrast` revision is a silent no-op
(no error, canvas unchanged) for every coordinate outside
[0,width)×[0,height), negative coordinates included. -/
theorem claim_c2_strict_vs_clipping (width height : Nat) (x y : Int)
    (ascii_char : List Nat) (cv : PyAcrast.Canvas) (c : List Nat)
    (fg_color bg_color : Option RGBColor) (depth : Option ℚ)
    (hoob : ¬ (0 ≤ x ∧ x < (cv.w : Int) ∧ 0 ≤ y ∧ y < (cv.h : Int))) :
    (PyAsciirast.strict_plot_error width height x y ascii_char =
        some CanvasError.OutOfBounds ↔
      (width : Int) ≤ x ∨ (height : Int) ≤ y) ∧
    cv.plot x y c fg_color bg_color depth = (cv, none) := by
  constructor
  · unfold PyAsciirast.strict_plot_error
    split
    · rename_i hg
      constructor
      · intro _
        rcases hg with h | h
        · exact Or.inl (by omega)
        · exact Or.inr (by omega)
      · intro _
        rfl
    · rename_i hg
      rw [not_or, not_not, not_not] at hg
      constructor
      · intro h
        split at h <;> simp_all
      · intro h
        rcases h with h | h <;> [omega; omega]
  · unfold PyAcrast.Canvas.plot
    rw [if_pos hoob]

/-- Witness for C2 (amended) at width = height = 5, (x, y) = (-1, 0), and
the 1×1 demonstration canvas. -/
theorem claim_c2_witness :
    (PyAsciirast.strict_plot_error 5 5 (-1) 0 [120] =
        some CanvasError.OutOfBounds ↔
      (5 : Int) ≤ -1 ∨ (5 : Int) ≤ 0) ∧
    cvDemo.plot (-1) 0 [120] none none none = (cvDemo, none) :=
  claim_c2_strict_vs_clipping 5 5 (-1) 0 [120] cvDemo [120] none none none
    (by decide)

/-- C4 counterexample: the `py_asciirast` revision's strict `plot`, given
the two-character glyph "ab" at the in-bounds coordinate (0, 0) of a 5×5
canvas, raises nothing and passes the truncated first character (code 97)
to the native write, contrary to the claim that every API revision's plot
entry point fails with `InvalidGlyph` and never silently truncates. -/
theorem claim_c4_counterexample :
    PyAsciirast.strict_plot_error 5 5 0 0 [97, 98] = none ∧
    PyAsciirast.strict_plot_glyph_arg [97, 98] = 97 := by
  decide

/-- C4 (amended): in the `py_acrast` revision, an in-bounds `plot` with a
glyph that is not exactly one printable ASCII character (code 0x20..0x7E)
fails with `InvalidGlyph` and leaves the canvas unchanged; the
`py_asciirast` revision's strict `plot` performs no such validation and
silently truncates the glyph to its first character. -/
theorem claim_c4_invalid_glyph (cv : PyAcrast.Canvas) (x y : Int) (c : List Nat)
    (fg_color bg_color : Option RGBColor) (depth : Option ℚ)
    (hin : 0 ≤ x ∧ x < (cv.w : Int) ∧ 0 ≤ y ∧ y < (cv.h : Int))
    (hbad : ¬ (c.length = 1 ∧ 32 ≤ c.headD 0 ∧ c.headD 0 ≤ 126)) :
    cv.plot x y c fg_color bg_color depth = (cv, some CanvasError.InvalidGlyph) := by
  unfold PyAcrast.Canvas.plot
  rw [if_neg (not_not_intro hin)]
  by_cases hlen : c.length = 1
  · have hrange : ¬ (32 ≤ c.headD 0 ∧ c.headD 0 ≤ 126) := fun hr => hbad ⟨hlen, hr⟩
    rw [if_neg (not_not_intro hlen), if_pos hrange]
  · rw [if_pos hlen]

/-- Witness for C4 (amended): the two-character glyph "ab" at (0, 0) of the
1×1 demonstration canvas is rejected with `InvalidGlyph`. -/
theorem claim_c4_witness :
    cvDemo.plot 0 0 [97, 98] none none none =
      (cvDemo, some CanvasError.InvalidGlyph) :=
  claim_c4_invalid_glyph cvDemo 0 0 [97, 98] none none none (by decide) (by decide)

/-- C10 (code bug): on a 1×1 canvas the per-cell accessors do return the
raw packed plane values, but both whole-plane accessors, as written, fail
with `AttributeError` instead of returning the plane decoded into triples
— `EncodedRGBColor.decode(val)` binds the plain integer `val` as `self`
and `self.value` fails — so the claimed consistency equality has no
right-hand side.  Decoding the per-cell raw value through a properly
constructed `EncodedRGBColor(val).decode()` (evidently the intended call)
yields exactly the decoded triples the claim expects. -/
theorem claim_c10_accessor_attribute_error :
    (PyAsciirast.CanvasA.mk 1 1 [[16711680]] [[255]]).get_all_fg_color_values =
      Except.error CanvasError.AttributeError ∧
    (PyAsciirast.CanvasA.mk 1 1 [[16711680]] [[255]]).get_all_bg_color_values =
      Except.error CanvasError.AttributeError ∧
    (PyAsciirast.EncodedRGBColor.mk
        ((PyAsciirast.CanvasA.mk 1 1 [[16711680]] [[255]]).get_fg_color_value_at 0 0)).decode =
      RGBColor.mk 255 0 0 ∧
    (PyAsciirast.EncodedRGBColor.mk
        ((PyAsciirast.CanvasA.mk 1 1 [[16711680]] [[255]]).get_bg_color_value_at 0 0)).decode =
      RGBColor.mk 0 0 255 :=
  ⟨rfl, rfl, rfl, rfl⟩

namespace Rasterizer

/-- Modelled from the spec: the stepping loop of the native `draw_line`
(absent from the repository; `draw_line` in `py_asciirast/draw.py` only
marshals to it), which the spec describes as an integer/error-accumulation
(Bresenham-family) stepping algorithm.  Reduced to the first octant
(`0 ≤ ady ≤ adx`): `n` remaining major-axis steps from offsets `(i, j)`
with doubled error accumulator `d`; each step advances the major offset by
one and advances the minor offset exactly when the accumulator is
positive, adjusting the accumulator by the standard Bresenham increments. -/
def bresAux (adx ady : Nat) : Nat → Nat → Nat → Int → List (Nat × Nat)
  | 0, i, j, _ => [(i, j)]
  | n + 1, i, j, d =>
      if 0 < d then
        (i, j) :: bresAux adx ady n (i + 1) (j + 1) (d + 2 * (ady : Int) - 2 * (adx : Int))
      else
        (i, j) :: bresAux adx ady n (i + 1) j (d + 2 * (ady : Int))

/-- Modelled from the spec: the offsets visited in the first octant —
`adx` major steps from `(0, 0)` with the standard initial accumulator
`2*ady - adx`. -/
def bres (adx ady : Nat) : List (Nat × Nat) :=
  bresAux adx ady adx 0 0 (2 * (ady : Int) - (adx : Int))

/-- The minor-axis offset after `k` major steps, in closed form. -/
def bresY (adx ady k : Nat) : Nat :=
  (2 * k * ady + adx - 1) / (2 * adx)

lemma bresAux_length (adx ady : Nat) :
    ∀ (n i j : Nat) (d : Int), (bresAux adx ady n i j d).length = n + 1 := by
  intro n
  induction n with
  | zero => intro i j d; rfl
  | succ n ih =>
    intro i j d
    unfold bresAux
    split <;> simp [ih]

lemma bresY_zero (adx ady : Nat) : bresY adx ady 0 = 0 := by
  unfold bresY
  rcases Nat.eq_zero_or_pos adx with h | h
  · subst h; simp
  · refine Nat.div_eq_of_lt ?_
    have : 2 * 0 * ady = 0 := by ring
    omega

lemma bresY_last (adx ady : Nat) (hpos : 0 < adx) : bresY adx ady adx = ady := by
  unfold bresY
  have h1 : 2 * adx * ady + adx - 1 = 2 * adx * ady + (adx - 1) := by omega
  rw [h1, Nat.mul_add_div (by omega), Nat.div_eq_of_lt (by omega)]
  omega

lemma bresY_mono (adx ady i : Nat) : bresY adx ady i ≤ bresY adx ady (i + 1) := by
  unfold bresY
  refine Nat.div_le_div_right ?_
  have : 2 * (i + 1) * ady = 2 * i * ady + 2 * ady := by ring
  omega

lemma bresY_succ_le (adx ady i : Nat) (hle : ady ≤ adx) (hpos : 0 < adx) :
    bresY adx ady (i + 1) ≤ bresY adx ady i + 1 := by
  unfold bresY
  have e : 2 * (i + 1) * ady = 2 * i * ady + 2 * ady := by ring
  calc (2 * (i + 1) * ady + adx - 1) / (2 * adx)
      ≤ ((2 * i * ady + adx - 1) + 2 * adx) / (2 * adx) :=
        Nat.div_le_div_right (by omega)
    _ = (2 * i * ady + adx - 1) / (2 * adx) + 1 := Nat.add_div_right _ (by omega)

end Rasterizer

namespace Rasterizer

lemma bresY_succ_ge_iff (adx ady i : Nat) (hpos : 0 < adx) :
    bresY adx ady i + 1 ≤ bresY adx ady (i + 1) ↔
      2 * (bresY adx ady i * adx) + adx < 2 * ((i + 1) * ady) := by
  generalize bresY adx ady i = j
  rw [show bresY adx ady (i + 1) = (2 * (i + 1) * ady + adx - 1) / (2 * adx) from rfl]
  rw [Nat.le_div_iff_mul_le (show 0 < 2 * adx by omega)]
  have e1 : (j + 1) * (2 * adx) = 2 * (j * adx) + 2 * adx := by ring
  have e2 : 2 * (i + 1) * ady = 2 * ((i + 1) * ady) := by ring
  omega

lemma bresY_decision (adx ady i : Nat) (hle : ady ≤ adx) (hpos : 0 < adx) :
    (0 < 2 * ((i : Int) + 1) * (ady : Int) -
        (2 * (bresY adx ady i : Int) + 1) * (adx : Int)) ↔
      bresY adx ady (i + 1) = bresY adx ady i + 1 := by
  have hup := bresY_succ_le adx ady i hle hpos
  have hlo := bresY_mono adx ady i
  have hcast : (0 < 2 * ((i : Int) + 1) * (ady : Int) -
      (2 * (bresY adx ady i : Int) + 1) * (adx : Int)) ↔
      2 * (bresY adx ady i * adx) + adx < 2 * ((i + 1) * ady) := by
    have c1 : (2 : Int) * ((i : Int) + 1) * (ady : Int) =
        ((2 * ((i + 1) * ady) : Nat) : Int) := by
      push_cast; ring
    have c2 : ((2 : Int) * (bresY adx ady i : Int) + 1) * (adx : Int) =
        ((2 * (bresY adx ady i * adx) + adx : Nat) : Int) := by
      push_cast; ring
    rw [c1, c2]
    omega
  rw [hcast, ← bresY_succ_ge_iff adx ady i hpos]
  omega

lemma bresAux_closed (adx ady : Nat) (hle : ady ≤ adx) (hpos : 0 < adx) :
    ∀ (n i j : Nat) (d : Int),
      j = bresY adx ady i →
      d = 2 * ((i : Int) + 1) * (ady : Int) - (2 * (j : Int) + 1) * (adx : Int) →
      bresAux adx ady n i j d =
        (List.range (n + 1)).map (fun k => (i + k, bresY adx ady (i + k))) := by
  intro n
  induction n with
  | zero =>
    intro i j d hj hd
    subst hj
    simp [bresAux, List.range_succ]
  | succ n ih =>
    intro i j d hj hd
    subst hj
    subst hd
    unfold bresAux
    rw [List.range_succ_eq_map, List.map_cons, List.map_map]
    by_cases hdpos : 0 < 2 * ((i : Int) + 1) * (ady : Int) -
        (2 * ((bresY adx ady i : Nat) : Int) + 1) * (adx : Int)
    · rw [if_pos hdpos]
      have hstep : bresY adx ady (i + 1) = bresY adx ady i + 1 :=
        (bresY_decision adx ady i hle hpos).mp hdpos
      rw [ih (i + 1) (bresY adx ady i + 1)
            (2 * ((i : Int) + 1) * (ady : Int) -
                (2 * ((bresY adx ady i : Nat) : Int) + 1) * (adx : Int) +
              2 * (ady : Int) - 2 * (adx : Int))
            hstep.symm (by push_cast; ring)]
      congr 1
      apply List.map_congr_left
      intro k hk
      have hidx : i + 1 + k = i + (k + 1) := by omega
      simp only [Function.comp_apply, Nat.succ_eq_add_one, hidx]
    · rw [if_neg hdpos]
      have hstep : bresY adx ady (i + 1) = bresY adx ady i := by
        have h1 := bresY_succ_le adx ady i hle hpos
        have h2 := bresY_mono adx ady i
        have h3 : ¬ (bresY adx ady (i + 1) = bresY adx ady i + 1) := fun hh =>
          hdpos ((bresY_decision adx ady i hle hpos).mpr hh)
        omega
      rw [ih (i + 1) (bresY adx ady i)
            (2 * ((i : Int) + 1) * (ady : Int) -
                (2 * ((bresY adx ady i : Nat) : Int) + 1) * (adx : Int) +
              2 * (ady : Int))
            hstep.symm (by push_cast; ring)]
      congr 1
      apply List.map_congr_left
      intro k hk
      have hidx : i + 1 + k = i + (k + 1) := by omega
      simp only [Function.comp_apply, Nat.succ_eq_add_one, hidx]

lemma bres_closed (adx ady : Nat) (hle : ady ≤ adx) :
    bres adx ady = (List.range (adx + 1)).map (fun k => (k, bresY adx ady k)) := by
  rcases Nat.eq_zero_or_pos adx with h | hpos
  · subst h
    have h0 : ady = 0 := by omega
    subst h0
    rfl
  · unfold bres
    rw [bresAux_closed adx ady hle hpos adx 0 0 (2 * (ady : Int) - (adx : Int))
          (bresY_zero adx ady).symm (by push_cast; ring)]
    simp

end Rasterizer

namespace Rasterizer

lemma bres_head (adx ady : Nat) (hle : ady ≤ adx) :
    (bres adx ady).head? = some (0, 0) := by
  rw [bres_closed adx ady hle, List.range_succ_eq_map, List.map_cons]
  simp [bresY_zero]

lemma bres_last (adx ady : Nat) (hle : ady ≤ adx) :
    (bres adx ady).getLast? = some (adx, ady) := by
  rw [bres_closed adx ady hle, List.range_succ, List.map_append]
  simp only [List.map_cons, List.map_nil, List.getLast?_concat]
  rcases Nat.eq_zero_or_pos adx with h | hpos
  · subst h
    have h0 : ady = 0 := by omega
    subst h0
    rfl
  · rw [bresY_last adx ady hpos]

lemma bres_nodup (adx ady : Nat) (hle : ady ≤ adx) : (bres adx ady).Nodup := by
  rw [bres_closed adx ady hle]
  refine List.Nodup.map ?_ (List.nodup_range _)
  intro a b hab
  simpa using congrArg Prod.fst hab

lemma bres_chain (adx ady : Nat) (hle : ady ≤ adx) :
    List.Chain' (fun p q : Nat × Nat =>
      q.1 = p.1 + 1 ∧ (q.2 = p.2 ∨ q.2 = p.2 + 1)) (bres adx ady) := by
  rw [bres_closed adx ady hle, List.chain'_map, List.chain'_range_succ]
  intro m hm
  simp only [Nat.succ_eq_add_one]
  have hpos : 0 < adx := by omega
  have h1 := bresY_succ_le adx ady m hle hpos
  have h2 := bresY_mono adx ady m
  exact ⟨by trivial, by omega⟩

lemma bres_length (adx ady : Nat) : (bres adx ady).length = adx + 1 :=
  bresAux_length adx ady adx 0 0 _

lemma endpoint_shift (a b : Int) :
    a + (if a ≤ b then (1 : Int) else -1) * (((b - a).natAbs : Nat) : Int) = b := by
  split <;> omega

lemma shift_inj (x0 y0 sx sy : Int) (hsx : sx = 1 ∨ sx = -1) (hsy : sy = 1 ∨ sy = -1) :
    Function.Injective
      (fun p : Nat × Nat => (x0 + sx * (p.1 : Int), y0 + sy * (p.2 : Int))) := by
  intro p q h
  simp only [Prod.mk.injEq] at h
  obtain ⟨h1, h2⟩ := h
  have e1 : p.1 = q.1 := by rcases hsx with hh | hh <;> subst hh <;> omega
  have e2 : p.2 = q.2 := by rcases hsy with hh | hh <;> subst hh <;> omega
  cases p; cases q; simp_all

lemma shift_swap_inj (x0 y0 sx sy : Int) (hsx : sx = 1 ∨ sx = -1) (hsy : sy = 1 ∨ sy = -1) :
    Function.Injective
      (fun p : Nat × Nat => (x0 + sx * (p.2 : Int), y0 + sy * (p.1 : Int))) := by
  intro p q h
  simp only [Prod.mk.injEq] at h
  obtain ⟨h1, h2⟩ := h
  have e1 : p.2 = q.2 := by rcases hsx with hh | hh <;> subst hh <;> omega
  have e2 : p.1 = q.1 := by rcases hsy with hh | hh <;> subst hh <;> omega
  cases p; cases q; simp_all

/-- Modelled from the spec: the sequence of cells the native `draw_line`
visits for the segment from (x0, y0) to (x1, y1), after the floating
variant's truncation to cell indices — the first-octant stepping `bres`,
reflected into the correct octant by the per-axis step signs, with the
major and minor axes swapped when the segment is steep. -/
def drawLineCells (x0 y0 x1 y1 : Int) : List (Int × Int) :=
  let adx := (x1 - x0).natAbs
  let ady := (y1 - y0).natAbs
  let sx : Int := if x0 ≤ x1 then 1 else -1
  let sy : Int := if y0 ≤ y1 then 1 else -1
  if ady ≤ adx then
    (bres adx ady).map (fun p => (x0 + sx * (p.1 : Int), y0 + sy * (p.2 : Int)))
  else
    (bres ady adx).map (fun p => (x0 + sx * (p.2 : Int), y0 + sy * (p.1 : Int)))

end Rasterizer

namespace Rasterizer

/-- C5: the line rasterization, modelled from the spec's Bresenham
description, visits a gap-free, duplicate-free chain of cells that includes
both endpoints: for every segment the visited list starts at (x0, y0), ends
at (x1, y1), has no duplicates, every two consecutive visited cells are
distinct and 8-adjacent (each coordinate changes by at most one — no gaps),
its length is max(|dx|, |dy|) + 1 (each cell visited exactly once), and in
particular the segment (0,0)-(4,0) visits exactly the cells (0,0)..(4,0). -/
theorem claim_c5_draw_line (x0 y0 x1 y1 : Int) :
    (drawLineCells x0 y0 x1 y1).head? = some (x0, y0) ∧
    (drawLineCells x0 y0 x1 y1).getLast? = some (x1, y1) ∧
    (drawLineCells x0 y0 x1 y1).Nodup ∧
    List.Chain' (fun p q : Int × Int =>
      (q.1 - p.1).natAbs ≤ 1 ∧ (q.2 - p.2).natAbs ≤ 1 ∧ p ≠ q)
      (drawLineCells x0 y0 x1 y1) ∧
    (drawLineCells x0 y0 x1 y1).length =
      max (x1 - x0).natAbs (y1 - y0).natAbs + 1 ∧
    drawLineCells 0 0 4 0 = [(0, 0), (1, 0), (2, 0), (3, 0), (4, 0)] := by
  by_cases hsteep : (y1 - y0).natAbs ≤ (x1 - x0).natAbs
  · have hdl : drawLineCells x0 y0 x1 y1 =
        (bres (x1 - x0).natAbs (y1 - y0).natAbs).map
          (fun p : Nat × Nat =>
            (x0 + (if x0 ≤ x1 then (1 : Int) else -1) * (p.1 : Int),
             y0 + (if y0 ≤ y1 then (1 : Int) else -1) * (p.2 : Int))) := by
      simp only [drawLineCells]
      rw [if_pos hsteep]
    refine ⟨?_, ?_, ?_, ?_, ?_, by decide⟩
    · rw [hdl, List.head?_map, bres_head _ _ hsteep]
      simp
    · rw [hdl, List.getLast?_map, bres_last _ _ hsteep]
      simp only [Option.map_some', endpoint_shift]
    · rw [hdl]
      exact (bres_nodup _ _ hsteep).map
        (shift_inj x0 y0 _ _ (by split <;> simp) (by split <;> simp))
    · rw [hdl, List.chain'_map]
      refine List.Chain'.imp ?_ (bres_chain _ _ hsteep)
      intro p q hpq
      obtain ⟨ha, hb⟩ := hpq
      by_cases hx : x0 ≤ x1 <;> by_cases hy : y0 ≤ y1 <;>
        simp only [hx, hy, if_true, if_false, Prod.mk.injEq, ne_eq, not_and] <;>
        exact ⟨by omega, by omega, fun hc1 hc2 => by omega⟩
    · rw [hdl, List.length_map, bres_length]
      omega
  · have hle2 : (x1 - x0).natAbs ≤ (y1 - y0).natAbs := le_of_not_le hsteep
    have hdl : drawLineCells x0 y0 x1 y1 =
        (bres (y1 - y0).natAbs (x1 - x0).natAbs).map
          (fun p : Nat × Nat =>
            (x0 + (if x0 ≤ x1 then (1 : Int) else -1) * (p.2 : Int),
             y0 + (if y0 ≤ y1 then (1 : Int) else -1) * (p.1 : Int))) := by
      simp only [drawLineCells]
      rw [if_neg hsteep]
    refine ⟨?_, ?_, ?_, ?_, ?_, by decide⟩
    · rw [hdl, List.head?_map, bres_head _ _ hle2]
      simp
    · rw [hdl, List.getLast?_map, bres_last _ _ hle2]
      simp only [Option.map_some', endpoint_shift]
    · rw [hdl]
      exact (bres_nodup _ _ hle2).map
        (shift_swap_inj x0 y0 _ _ (by split <;> simp) (by split <;> simp))
    · rw [hdl, List.chain'_map]
      refine List.Chain'.imp ?_ (bres_chain _ _ hle2)
      intro p q hpq
      obtain ⟨ha, hb⟩ := hpq
      by_cases hx : x0 ≤ x1 <;> by_cases hy : y0 ≤ y1 <;>
        simp only [hx, hy, if_true, if_false, Prod.mk.injEq, ne_eq, not_and] <;>
        exact ⟨by omega, by omega, fun hc1 hc2 => by omega⟩
    · rw [hdl, List.length_map, bres_length]
      omega

end Rasterizer
